import Mathlib

/-!
Verification of the salatomatic scraper (`src/index.ts`).

Shallow embedding of the scraper's logic:

* `cleanText`   — the text normalizer (`cleanText` in the source),
* `convertToDate` — the `HH:MM (TZ)` time parser (`convertToDate` in the source),
* `Node`/`selectNodes`/… — a model of the parsed HTML document and of the
  cheerio queries issued by `scrape`,
* `extractFromDoc`/`scrape` — the per-page record extraction and the pipeline.

Timestamps are modelled as integer milliseconds since the Unix epoch (UTC),
exactly the internal time value of a JavaScript `Date`.  Division `/` on `Int`
in Lean is Euclidean division, which coincides with the floor division used by
the ECMAScript `Date` algorithms whenever the divisor is positive (all divisors
below are positive constants).
-/

/-- The set of characters matched by the JavaScript regex class `\s`
(also the set stripped by `String.prototype.trim`): space, tab, line
terminators, form feed, vertical tab, and the Unicode space characters. -/
def isJsSpace (c : Char) : Bool :=
  decide (c = ' ' ∨ c = '\t' ∨ c = '\n' ∨ c = '\r' ∨ c = '\x0b' ∨ c = '\x0c' ∨
    c = '\u00A0' ∨ c = '\u1680' ∨ (0x2000 ≤ c.toNat ∧ c.toNat ≤ 0x200A) ∨
    c = '\u2028' ∨ c = '\u2029' ∨ c = '\u202F' ∨ c = '\u205F' ∨ c = '\u3000' ∨
    c = '\uFEFF')

/-- The characters matched by the JavaScript regex class `\d`, i.e. `[0-9]`. -/
def isDigitChar (c : Char) : Bool :=
  decide (48 ≤ c.toNat ∧ c.toNat ≤ 57)

/-- The characters matched by the JavaScript regex class `\w`,
i.e. `[A-Za-z0-9_]`. -/
def isWordChar (c : Char) : Bool :=
  isDigitChar c || decide (65 ≤ c.toNat ∧ c.toNat ≤ 90) ||
    decide (97 ≤ c.toNat ∧ c.toNat ≤ 122) || c == '_'

/-- State of the left-to-right scan implementing the global regex replace
`.replace(/\s\s+/g, "")`: `normal` outside whitespace, `pend c` after exactly
one (not yet emitted) whitespace character `c`, `swall` while swallowing a run
of two or more whitespace characters. -/
inductive WsState where
  | normal
  | pend (c : Char)
  | swall

/-- Left-to-right scan implementing `.replace(/\s\s+/g, "")`: every maximal
run of two or more `\s` characters is replaced by the empty string, while a
single whitespace character is kept.  (The JavaScript global replace finds the
leftmost match of `/\s\s+/`, which by greediness is a whole maximal run of
length ≥ 2, removes it, and continues after it.) -/
def collapseAux (st : WsState) : List Char → List Char
  | [] =>
    match st with
    | WsState.pend c => [c]
    | _ => []
  | c :: rest =>
    match st with
    | WsState.normal =>
      if isJsSpace c then collapseAux (WsState.pend c) rest
      else c :: collapseAux WsState.normal rest
    | WsState.pend p =>
      if isJsSpace c then collapseAux WsState.swall rest
      else p :: c :: collapseAux WsState.normal rest
    | WsState.swall =>
      if isJsSpace c then collapseAux WsState.swall rest
      else c :: collapseAux WsState.normal rest

/-- `text.replace(/\s\s+/g, "")` on a list of characters. -/
def collapseWs (l : List Char) : List Char := collapseAux WsState.normal l

/-- Remove trailing `\s` characters (the right half of `String.prototype.trim`). -/
def trimRight : List Char → List Char
  | [] => []
  | c :: rest =>
    if (trimRight rest).isEmpty then (if isJsSpace c then [] else [c])
    else c :: trimRight rest

/-- Remove leading `\s` characters (the left half of `String.prototype.trim`). -/
def trimLeft (l : List Char) : List Char := List.dropWhile isJsSpace l

/-- `cleanText` from the source:
`text.replace(/\n/g, "").replace(/\t/g, "").replace(/\s\s+/g, "").trim()`. -/
def cleanText (text : String) : String :=
  ⟨trimRight (trimLeft (collapseWs
    ((text.data.filter (fun c => c != '\n')).filter (fun c => c != '\t'))))⟩

/-- The two failure modes of `convertToDate`: `throw new Error("Invalid time
format")` and `throw new Error("Unknown time zone abbreviation")`. -/
inductive TimeError where
  | parseError
  | unknownTimezone
deriving DecidableEq

/-- Attempt to match the regex `/(\d{2}:\d{2})\s\((\w+)\)/` at the very start
of the character list.  On success, return the four captured digits (the first
capture group is the string `d1 d2 : d3 d4`) and the second capture group (the
maximal nonempty run of `\w` characters before the closing parenthesis; since
`)` is not a word character, the greedy `\w+` followed by `\)` matches exactly
that run). -/
def matchTimeAt : List Char → Option (Char × Char × Char × Char × String)
  | d1 :: d2 :: c :: d3 :: d4 :: w :: p :: rest =>
    if isDigitChar d1 && isDigitChar d2 && c == ':' && isDigitChar d3 &&
        isDigitChar d4 && isJsSpace w && p == '(' then
      if (rest.takeWhile isWordChar).isEmpty then none
      else if (rest.dropWhile isWordChar).head? == some ')' then
        some (d1, d2, d3, d4, ⟨rest.takeWhile isWordChar⟩)
      else none
    else none
  | _ => none

/-- `timeString.match(timeRegex)` for the unanchored regex
`/(\d{2}:\d{2})\s\((\w+)\)/`: the leftmost match, found by trying every start
position from the left. -/
def findTimeMatch : List Char → Option (Char × Char × Char × Char × String)
  | [] => none
  | c :: rest =>
    match matchTimeAt (c :: rest) with
    | some r => some r
    | none => findTimeMatch rest

/-- The own entries of the `timeZoneOffsets` object literal from the source,
in source order. -/
def timeZoneOffsets : List (String × Int) :=
  [("UTC", 0), ("GMT", 0), ("EST", -5), ("EDT", -4), ("CST", -6),
   ("CDT", -5), ("MST", -7), ("MDT", -6), ("PST", -8), ("PDT", -7)]

/-- The property names a plain object literal `{...}` inherits from
`Object.prototype` (data and accessor properties, including the Annex B
getter/setter helpers): bracket access on `timeZoneOffsets` finds these on
the prototype chain, so for them `timeZoneOffsets[key]` is *not*
`undefined`.  All of them are matched by the regex class `\w+`. -/
def objectPrototypeProps : List String :=
  ["constructor", "hasOwnProperty", "isPrototypeOf", "propertyIsEnumerable",
   "toLocaleString", "toString", "valueOf", "__proto__", "__defineGetter__",
   "__defineSetter__", "__lookupGetter__", "__lookupSetter__"]

/-- The value of the JavaScript bracket access `timeZoneOffsets[key]`:
an own entry's number; a non-`undefined` value inherited from
`Object.prototype` (a function, or the prototype object for `__proto__`,
whose `ToNumber` coercion is `NaN`); or `undefined`. -/
inductive PropValue where
  | num (n : Int)
  | inherited
  | undef
deriving DecidableEq

/-- `timeZoneOffsets[key]` with full JavaScript property-lookup semantics:
own properties first, then the `Object.prototype` members, else
`undefined`. -/
def timeZoneOffsetsGet (key : String) : PropValue :=
  match List.lookup key timeZoneOffsets with
  | some n => PropValue.num n
  | none =>
    if key ∈ objectPrototypeProps then PropValue.inherited else PropValue.undef

/-- A JavaScript `Date` value as returned by `convertToDate`: either a valid
date holding an integer time value, or an Invalid Date (`NaN` time value, as
produced by `setUTCHours(NaN, ...)`). -/
inductive JsDate where
  | valid (t : Int)
  | invalid
deriving DecidableEq

/-- Numeric value of a decimal digit character (`Number` applied to a
two-digit string `d1 d2` is `10 * digitVal d1 + digitVal d2`). -/
def digitVal (c : Char) : Int := (c.toNat : Int) - 48

/-- Milliseconds per day. -/
def msPerDay : Int := 86400000

/-- `date.setUTCHours(h, m, 0, 0)` on a `Date` holding the time value `t`:
keep the UTC calendar day of `t` (`Day(t) = floor(t / msPerDay)`) and set the
time of day to `h` hours and `m` minutes; an out-of-range `h` rolls over into
the following day, exactly as in ECMAScript `MakeDate(Day(t), MakeTime(h, m,
0, 0))`. -/
def setUTCHours (t h m : Int) : Int :=
  t / msPerDay * msPerDay + h * 3600000 + m * 60000

/-- `convertToDate` from the source.  `now` is the time value of the `Date`
created by `new Date()` (the moment the parse runs).  Exceptions are modelled
by `Except.error`.  The `offset === undefined` guard only fires when the
bracket access finds nothing on the whole prototype chain; for an inherited
`Object.prototype` member the guard passes, `hours - offset` coerces to
`NaN`, and `setUTCHours(NaN, minutes, 0, 0)` makes the returned date an
Invalid Date rather than throwing. -/
def convertToDate (timeString : String) (now : Int) : Except TimeError JsDate :=
  match findTimeMatch timeString.data with
  | none => Except.error TimeError.parseError
  | some (h1, h2, m1, m2, timeZoneAbbr) =>
    let hours : Int := digitVal h1 * 10 + digitVal h2
    let minutes : Int := digitVal m1 * 10 + digitVal m2
    match timeZoneOffsetsGet timeZoneAbbr with
    | PropValue.undef => Except.error TimeError.unknownTimezone
    | PropValue.num offset =>
      Except.ok (JsDate.valid (setUTCHours now (hours - offset) minutes))
    | PropValue.inherited => Except.ok JsDate.invalid

/-- `getUTCDate`-level calendar day of a time value: days since the epoch. -/
def dateOf (t : Int) : Int := t / 86400000

/-- `getUTCHours` of a time value. -/
def utcHourOf (t : Int) : Int := t / 3600000 % 24

/-- `getUTCMinutes` of a time value. -/
def minuteOf (t : Int) : Int := t / 60000 % 60

/-- `getUTCSeconds` of a time value. -/
def secondOf (t : Int) : Int := t / 1000 % 60

/-- `getUTCMilliseconds` of a time value. -/
def msOf (t : Int) : Int := t % 1000

/-- An input string of the exact form `HH:MM (TZ)`: two digits, a colon, two
digits, a space, and a parenthesized abbreviation. -/
def timeInput (d1 d2 d3 d4 : Char) (tz : String) : String :=
  ⟨d1 :: d2 :: ':' :: d3 :: d4 :: ' ' :: '(' :: (tz.data ++ [')'])⟩

/-- The input contains (anywhere, as the unanchored source regex requires) a
substring of the form `<two-digit hour>:<two-digit minute>` followed by one
whitespace character and a parenthesized nonempty word — the pattern
`/(\d{2}:\d{2})\s\((\w+)\)/`. -/
def hasTimePatternL (l : List Char) : Prop :=
  ∃ pre d1 d2 d3 d4 w tzl post,
    l = pre ++ d1 :: d2 :: ':' :: d3 :: d4 :: w :: '(' :: (tzl ++ ')' :: post) ∧
    isDigitChar d1 = true ∧ isDigitChar d2 = true ∧ isDigitChar d3 = true ∧
    isDigitChar d4 = true ∧ isJsSpace w = true ∧ tzl ≠ [] ∧
    ∀ c ∈ tzl, isWordChar c = true

/-- `hasTimePatternL` on a string. -/
def hasTimePattern (s : String) : Prop := hasTimePatternL s.data

/-! ## Document model and cheerio queries -/

/-- A node of the parsed HTML document: an element with a tag name, its class
list, its `href` attribute (the only attribute the scraper reads, `none` when
absent), and its children in document order; or a text node. -/
inductive Node where
  | elem (tag : String) (classes : List String) (href : Option String)
      (children : List Node)
  | text (s : String)

mutual
/-- All nodes of the subtree rooted at a node that satisfy `p`, in document
(pre-order, depth-first) order — the order cheerio selections use. -/
def selectNode (p : Node → Bool) : Node → List Node
  | Node.text s => if p (Node.text s) then [Node.text s] else []
  | Node.elem t c h cs =>
    (if p (Node.elem t c h cs) then [Node.elem t c h cs] else []) ++
      selectNodes p cs
/-- `selectNode` over a forest, in document order. -/
def selectNodes (p : Node → Bool) : List Node → List Node
  | [] => []
  | n :: ns => selectNode p n ++ selectNodes p ns
end

mutual
/-- Concatenated text of all text nodes of a subtree, in document order
(cheerio `.text()` of a single element). -/
def textContent : Node → String
  | Node.text s => s
  | Node.elem _ _ _ cs => textContentList cs
/-- `textContent` over a forest. -/
def textContentList : List Node → String
  | [] => ""
  | n :: ns => textContent n ++ textContentList ns
end

/-- The class selector `$(".cls")` applied to one node: does the node carry
the class?  (Text nodes never match.) -/
def hasClassB (cls : String) : Node → Bool
  | Node.elem _ classes _ _ => classes.contains cls
  | Node.text _ => false

/-- The tag selector `$("tag")` applied to one node. -/
def hasTagB (t : String) : Node → Bool
  | Node.elem tag _ _ _ => tag == t
  | Node.text _ => false

/-- `$(".cls")` over a whole document (a forest of top-level nodes). -/
def selectClass (cls : String) (doc : List Node) : List Node :=
  selectNodes (hasClassB cls) doc

/-- `$("tag")` over a whole document. -/
def selectTag (t : String) (doc : List Node) : List Node :=
  selectNodes (hasTagB t) doc

/-- `.find(sel)` on a single element: all proper descendants satisfying `p`,
in document order. -/
def findDesc (p : Node → Bool) : Node → List Node
  | Node.elem _ _ _ cs => selectNodes p cs
  | Node.text _ => []

/-- `selection.eq(i).text()`: the text of the `i`-th element of a selection,
and the empty string when the selection has no `i`-th element (cheerio's
`.text()` of an empty selection). -/
def textOfEq (sel : List Node) (i : Nat) : String :=
  match sel.get? i with
  | some n => textContent n
  | none => ""

/-- `selection.eq(i).find(sel)`: descendants of the `i`-th element, or the
empty selection when there is no `i`-th element. -/
def findDescEq (sel : List Node) (i : Nat) (p : Node → Bool) : List Node :=
  match sel.get? i with
  | some n => findDesc p n
  | none => []

/-- `$(link).attr("href")` interpolated into a template literal: a missing
attribute is JavaScript `undefined`, which the template literal
`` `${DOMAIN}${href}` `` renders as the string `"undefined"`. -/
def hrefAttr : Node → String
  | Node.elem _ _ (some h) _ => h
  | Node.elem _ _ none _ => "undefined"
  | Node.text _ => "undefined"

/-! ## The pipeline -/

/-- The hard-coded site domain. -/
def DOMAIN : String := "https://www.salatomatic.com"

/-- The hard-coded index-page path. -/
def SUB : String := "/sub/United-States/Alabama/Birmingham/AvcK8i3L3C"

/-- The index-page URL fetched first. -/
def indexURL : String := DOMAIN ++ SUB

/-- Link discovery from the index page: for each `.titleBS` element in
document order, for each anchor descendant in document order, record
`DOMAIN ++ href`. -/
def discoverURLs (doc : List Node) : List String :=
  (selectClass "titleBS" doc).flatMap (fun d =>
    (findDesc (hasTagB "a") d).map (fun link => DOMAIN ++ hrefAttr link))

/-- The `prayerTimings` object of a `Mosque` (source field names: `snrs` is
sunrise, `magh` is maghrib).  Each slot is an optional `Date`, possibly an
Invalid Date. -/
structure PrayerTimings where
  fajr : Option JsDate := none
  snrs : Option JsDate := none
  dhur : Option JsDate := none
  asr : Option JsDate := none
  magh : Option JsDate := none
  isha : Option JsDate := none
deriving DecidableEq

/-- The `Mosque` record interface from the source; all scalar fields are
optional there (`field?:`), so they are `Option`s here. -/
structure Mosque where
  description : Option String := none
  address : Option String := none
  url : Option String := none
  quickFacts : List String := []
  governance : List String := []
  prayerTimings : PrayerTimings := {}
deriving DecidableEq

/-- The record stub created for a discovered URL before its page is fetched:
`{ url, quickFacts: [], governance: [], prayerTimings: {} }`. -/
def emptyMosque (url : String) : Mosque :=
  { url := some url, quickFacts := [], governance := [], prayerTimings := {} }

/-- The six sequential prayer-timing assignments of the source.  Each calls
`convertToDate(cleanText($microLinkDivs.eq(i).text()))`; the first one that
throws aborts the remaining assignments (the exception is caught by the
per-URL `try`/`catch`), keeping the slots assigned so far. -/
def extractTimings (micro : List Node) (now : Int) : PrayerTimings :=
  match convertToDate (cleanText (textOfEq micro 0)) now with
  | Except.error _ => {}
  | Except.ok t0 =>
    let p : PrayerTimings := { fajr := some t0 }
    match convertToDate (cleanText (textOfEq micro 1)) now with
    | Except.error _ => p
    | Except.ok t1 =>
      let p : PrayerTimings := { p with snrs := some t1 }
      match convertToDate (cleanText (textOfEq micro 2)) now with
      | Except.error _ => p
      | Except.ok t2 =>
        let p : PrayerTimings := { p with dhur := some t2 }
        match convertToDate (cleanText (textOfEq micro 3)) now with
        | Except.error _ => p
        | Except.ok t3 =>
          let p : PrayerTimings := { p with asr := some t3 }
          match convertToDate (cleanText (textOfEq micro 4)) now with
          | Except.error _ => p
          | Except.ok t4 =>
            let p : PrayerTimings := { p with magh := some t4 }
            match convertToDate (cleanText (textOfEq micro 5)) now with
            | Except.error _ => p
            | Except.ok t5 => { p with isha := some t5 }

/-- Extraction from a successfully fetched and parsed detail page, mirroring
the body of the per-URL `try` block.  The address, description, quick-facts
and governance assignments cannot throw and happen before the timing
assignments, so the record is assembled in one literal; the timing block is
`extractTimings`. -/
def extractFromDoc (url : String) (doc : List Node) (now : Int) : Mosque :=
  let divs := selectClass "bodyLink" doc
  let tbodies := selectTag "tbody" doc
  { url := some url,
    address := some (cleanText (textOfEq divs 0)),
    description := some (cleanText (textOfEq divs 1)),
    quickFacts := (findDescEq tbodies 212 (hasTagB "div")).map
      (fun d => cleanText (textContent d)),
    governance := (findDescEq tbodies 214 (hasTagB "div")).map
      (fun d => cleanText (textContent d)),
    prayerTimings := extractTimings (selectClass "microLink" doc) now }

/-- The `scrape` pipeline.  `fetch` models `axios.get` followed by
`cheerio.load`: it returns the parsed document, or `none` when the request
fails (the thrown error is caught by the enclosing `try`/`catch`).  An index
fetch failure yields the empty list; a detail fetch failure keeps the
url-only stub; a successful detail fetch runs `extractFromDoc`. -/
def scrape (fetch : String → Option (List Node)) (now : Int) : List Mosque :=
  match fetch indexURL with
  | none => []
  | some indexDoc =>
    (discoverURLs indexDoc).map (fun url =>
      match fetch url with
      | none => emptyMosque url
      | some doc => extractFromDoc url doc now)

/-- Spec-modelled comparison definition for claim C8, following the spec's
words "collect normalized text of each *direct child* marker element" of the
element at the fixed quick-facts ordinal position (the 213th `tbody`): only
the direct children that are `div` elements contribute, not all descendants. -/
def quickFactsDirectChildrenSpec (doc : List Node) : List String :=
  match (selectTag "tbody" doc).get? 212 with
  | some (Node.elem _ _ _ cs) =>
    (cs.filter (hasTagB "div")).map (fun d => cleanText (textContent d))
  | _ => []

/-! ## Normal-form predicates for the normalizer -/

/-- No two adjacent characters are both `\s` whitespace (the normal form
produced by the `/\s\s+/g` replacement). -/
def noAdjWs : List Char → Bool
  | [] => true
  | [_] => true
  | a :: b :: rest => (!(isJsSpace a && isJsSpace b)) && noAdjWs (b :: rest)

/-- The first character, if any, is not `\s` whitespace. -/
def headNotWs : List Char → Bool
  | [] => true
  | c :: _ => !isJsSpace c

/-- The last character, if any, is not `\s` whitespace. -/
def lastNotWs : List Char → Bool
  | [] => true
  | [c] => !isJsSpace c
  | _ :: rest => lastNotWs rest

/-- The characters a `WsState` may still emit. -/
def wsStateChars : WsState → List Char
  | WsState.pend c => [c]
  | _ => []

/-! ## Concrete test documents and fetch oracles -/

/-- An anchor element with an `href` attribute. -/
def aDoc (href : String) : Node := Node.elem "a" [] (some href) []

/-- A `.titleBS` container holding exactly one anchor. -/
def titleDiv (href : String) : Node :=
  Node.elem "div" ["titleBS"] none [aDoc href]

/-- A synthetic index page with two title-block containers, one anchor each. -/
def cexIndexDoc : List Node := [titleDiv "/m1", titleDiv "/m2"]

/-- A detail page with one `.bodyLink` element (text `addr`) and no
`.microLink` elements, so the first prayer-time conversion throws. -/
def cexDetailDoc3 : List Node :=
  [Node.elem "div" ["bodyLink"] none [Node.text "addr"]]

/-- Fetch oracle for C3: the index page links to one detail page, whose fetch
succeeds but whose extraction hits a time-parse failure. -/
def cexFetchC3 (u : String) : Option (List Node) :=
  if u = indexURL then some [titleDiv "/m1"]
  else if u = DOMAIN ++ "/m1" then some cexDetailDoc3
  else none

/-- Fetch oracle that serves only the index page: every detail fetch fails. -/
def cexFetchIdxOnly (u : String) : Option (List Node) :=
  if u = indexURL then some cexIndexDoc else none

/-- A `.microLink` element with the given text. -/
def microDiv (t : String) : Node :=
  Node.elem "div" ["microLink"] none [Node.text t]

/-- A detail page with exactly one parseable `.microLink` element: the first
timing assignment succeeds and the second throws. -/
def cexDetailDocOneTime : List Node := [microDiv "05:30 (EST)"]

/-- A detail page with exactly four `.microLink` elements, all parseable. -/
def cexDetailDoc6 : List Node :=
  [microDiv "05:30 (EST)", microDiv "06:45 (EST)", microDiv "12:10 (EST)",
   microDiv "15:20 (EST)"]

/-- An empty `tbody` element. -/
def tbodyEmpty : Node := Node.elem "tbody" [] none []

/-- A detail page whose 213th `tbody` contains a `div` nested inside another
`div`: `.find("div")` sees two divs, the direct children only one. -/
def cexDoc8 : List Node :=
  List.replicate 212 tbodyEmpty ++
    [Node.elem "tbody" [] none
      [Node.elem "div" [] none [Node.elem "div" [] none [Node.text "x"]]]]

/-! ## Sanity checks (scratch) -/

example : cleanText "a\n\tb" = "ab" := rfl
example : cleanText "a    b" = "ab" := rfl
example : cleanText "a b" = "a b" := rfl
example : cleanText "" = "" := rfl
example : cleanText "  hello  " = "hello" := rfl
example : convertToDate "05:30 (EST)" 0 = Except.ok (JsDate.valid 37800000) := rfl
example : convertToDate "05:30 (XYZ)" 0 = Except.error TimeError.unknownTimezone := rfl
example : convertToDate "5:30pm" 0 = Except.error TimeError.parseError := rfl
example : convertToDate "19:00 (EST)" 0 = Except.ok (JsDate.valid 86400000) := rfl
example : convertToDate "05:30 (toString)" 0 = Except.ok JsDate.invalid := rfl
example : convertToDate "05:30 (valueOf)" 0 = Except.ok JsDate.invalid := rfl
example : utcHourOf 37800000 = 10 := rfl
example : minuteOf 37800000 = 30 := rfl
example : dateOf 86400000 = 1 := rfl

/-! ## Lemmas about the normalizer -/

theorem noAdjWs_cons (a : Char) (l : List Char)
    (ha : isJsSpace a = false) (hl : noAdjWs l = true) :
    noAdjWs (a :: l) = true := by
  cases l with
  | nil => rfl
  | cons b t => simp [noAdjWs, ha, hl]

theorem noAdjWs_tail (a : Char) (l : List Char)
    (h : noAdjWs (a :: l) = true) : noAdjWs l = true := by
  cases l with
  | nil => rfl
  | cons b t =>
    simp [noAdjWs] at h
    exact h.2

theorem noAdjWs_collapseAux :
    ∀ (l : List Char) (st : WsState), noAdjWs (collapseAux st l) = true := by
  intro l
  induction l with
  | nil =>
    intro st
    cases st <;> rfl
  | cons c rest ih =>
    intro st
    cases hc : isJsSpace c with
    | true =>
      cases st with
      | normal => simpa [collapseAux, hc] using ih (WsState.pend c)
      | pend p => simpa [collapseAux, hc] using ih WsState.swall
      | swall => simpa [collapseAux, hc] using ih WsState.swall
    | false =>
      cases st with
      | normal =>
        simpa [collapseAux, hc] using
          noAdjWs_cons c _ hc (ih WsState.normal)
      | pend p =>
        have h1 := noAdjWs_cons c _ hc (ih WsState.normal)
        simp [collapseAux, hc, noAdjWs, h1]
      | swall =>
        simpa [collapseAux, hc] using
          noAdjWs_cons c _ hc (ih WsState.normal)

theorem collapseAux_eq_self :
    ∀ l : List Char,
      (noAdjWs l = true → collapseAux WsState.normal l = l) ∧
      (∀ p, headNotWs l = true → noAdjWs l = true →
        collapseAux (WsState.pend p) l = p :: l) := by
  intro l
  induction l with
  | nil => exact ⟨fun _ => rfl, fun p _ _ => rfl⟩
  | cons c rest ih =>
    constructor
    · intro h
      cases hc : isJsSpace c with
      | false =>
        simp [collapseAux, hc]
        exact ih.1 (noAdjWs_tail _ _ h)
      | true =>
        simp [collapseAux, hc]
        apply ih.2 c ?_ (noAdjWs_tail _ _ h)
        cases rest with
        | nil => rfl
        | cons b t =>
          simp [noAdjWs, hc] at h
          simp [headNotWs, h.1]
    · intro p hh h
      have hc : isJsSpace c = false := by simpa [headNotWs] using hh
      simp [collapseAux, hc]
      exact ih.1 (noAdjWs_tail _ _ h)

theorem noAdjWs_collapseWs (l : List Char) : noAdjWs (collapseWs l) = true :=
  noAdjWs_collapseAux l WsState.normal

theorem collapseWs_eq_self (l : List Char) (h : noAdjWs l = true) :
    collapseWs l = l :=
  (collapseAux_eq_self l).1 h

theorem mem_collapseAux :
    ∀ (l : List Char) (st : WsState) (c : Char),
      c ∈ collapseAux st l → c ∈ wsStateChars st ++ l := by
  intro l
  induction l with
  | nil =>
    intro st c h
    cases st with
    | normal => simp [collapseAux] at h
    | pend p =>
      simp [collapseAux] at h
      simp [wsStateChars, h]
    | swall => simp [collapseAux] at h
  | cons a rest ih =>
    intro st c h
    cases ha : isJsSpace a with
    | true =>
      cases st with
      | normal =>
        have := ih (WsState.pend a) c (by simpa [collapseAux, ha] using h)
        simp [wsStateChars] at this ⊢
        tauto
      | pend p =>
        have := ih WsState.swall c (by simpa [collapseAux, ha] using h)
        simp [wsStateChars] at this ⊢
        tauto
      | swall =>
        have := ih WsState.swall c (by simpa [collapseAux, ha] using h)
        simp [wsStateChars] at this ⊢
        tauto
    | false =>
      cases st with
      | normal =>
        simp [collapseAux, ha] at h
        rcases h with h | h
        · simp [h]
        · have := ih WsState.normal c h
          simp [wsStateChars] at this ⊢
          tauto
      | pend p =>
        simp [collapseAux, ha] at h
        rcases h with h | h | h
        · simp [wsStateChars, h]
        · simp [wsStateChars, h]
        · have := ih WsState.normal c h
          simp [wsStateChars] at this ⊢
          tauto
      | swall =>
        simp [collapseAux, ha] at h
        rcases h with h | h
        · simp [h]
        · have := ih WsState.normal c h
          simp [wsStateChars] at this ⊢
          tauto

theorem mem_collapseWs (l : List Char) (c : Char) (h : c ∈ collapseWs l) :
    c ∈ l := by
  simpa [wsStateChars] using mem_collapseAux l WsState.normal c h

/-! ## Lemmas about trimming -/

theorem trimRight_cons (c : Char) (rest : List Char) :
    trimRight (c :: rest) =
      if (trimRight rest).isEmpty then (if isJsSpace c then [] else [c])
      else c :: trimRight rest := rfl

theorem headNotWs_trimLeft : ∀ l : List Char, headNotWs (trimLeft l) = true := by
  intro l
  induction l with
  | nil => rfl
  | cons c rest ih =>
    by_cases hc : isJsSpace c = true
    · simpa [trimLeft, List.dropWhile_cons, hc] using ih
    · simp only [Bool.not_eq_true] at hc
      simp [trimLeft, List.dropWhile_cons, hc, headNotWs]

theorem trimLeft_eq_self (l : List Char) (h : headNotWs l = true) :
    trimLeft l = l := by
  cases l with
  | nil => rfl
  | cons c rest =>
    simp [headNotWs] at h
    simp [trimLeft, List.dropWhile_cons, h]

theorem noAdjWs_trimLeft (l : List Char) (h : noAdjWs l = true) :
    noAdjWs (trimLeft l) = true := by
  induction l with
  | nil => exact h
  | cons c rest ih =>
    by_cases hc : isJsSpace c = true
    · simp only [trimLeft, List.dropWhile_cons, hc, if_true]
      exact ih (noAdjWs_tail _ _ h)
    · simp only [Bool.not_eq_true] at hc
      simpa [trimLeft, List.dropWhile_cons, hc] using h

theorem mem_trimLeft (l : List Char) (c : Char) (h : c ∈ trimLeft l) : c ∈ l :=
  (List.dropWhile_sublist isJsSpace).subset h

theorem trimRight_head :
    ∀ (l : List Char) (b : Char) (t : List Char),
      trimRight l = b :: t → ∃ r, l = b :: r := by
  intro l b t h
  cases l with
  | nil => simp [trimRight] at h
  | cons a rest =>
    rw [trimRight_cons] at h
    by_cases he : (trimRight rest).isEmpty = true
    · rw [if_pos he] at h
      by_cases ha : isJsSpace a = true
      · simp [ha] at h
      · simp only [Bool.not_eq_true] at ha
        simp only [ha, if_false] at h
        injection h with h1 _
        exact ⟨rest, by rw [h1]⟩
    · rw [if_neg he] at h
      injection h with h1 _
      exact ⟨rest, by rw [h1]⟩

theorem mem_trimRight : ∀ (l : List Char) (c : Char), c ∈ trimRight l → c ∈ l := by
  intro l
  induction l with
  | nil => intro c h; simp [trimRight] at h
  | cons a rest ih =>
    intro c h
    rw [trimRight_cons] at h
    by_cases he : (trimRight rest).isEmpty = true
    · rw [if_pos he] at h
      by_cases ha : isJsSpace a = true
      · simp [ha] at h
      · simp only [Bool.not_eq_true] at ha
        simp [ha] at h
        simp [h]
    · rw [if_neg he] at h
      rcases List.mem_cons.mp h with h1 | h2
      · simp [h1]
      · exact List.mem_cons_of_mem a (ih c h2)

theorem lastNotWs_trimRight : ∀ l : List Char, lastNotWs (trimRight l) = true := by
  intro l
  induction l with
  | nil => rfl
  | cons a rest ih =>
    rw [trimRight_cons]
    by_cases he : (trimRight rest).isEmpty = true
    · rw [if_pos he]
      by_cases ha : isJsSpace a = true
      · simp [ha, lastNotWs]
      · simp only [Bool.not_eq_true] at ha
        simp [ha, lastNotWs]
    · rw [if_neg he]
      cases hr : trimRight rest with
      | nil => simp [hr, List.isEmpty] at he
      | cons b t =>
        have heq : lastNotWs (a :: b :: t) = lastNotWs (b :: t) := rfl
        rw [heq, ← hr]
        exact ih

theorem trimRight_eq_self : ∀ l : List Char, lastNotWs l = true → trimRight l = l := by
  intro l
  induction l with
  | nil => intro _; rfl
  | cons a rest ih =>
    intro h
    cases rest with
    | nil =>
      simp [lastNotWs] at h
      rw [trimRight_cons]
      simp [trimRight, List.isEmpty, h]
    | cons b t =>
      have h' : lastNotWs (b :: t) = true := h
      have hr : trimRight (b :: t) = b :: t := ih h'
      rw [trimRight_cons, hr]
      simp [List.isEmpty]

theorem noAdjWs_trimRight : ∀ l : List Char, noAdjWs l = true → noAdjWs (trimRight l) = true := by
  intro l
  induction l with
  | nil => intro h; exact h
  | cons a rest ih =>
    intro h
    rw [trimRight_cons]
    by_cases he : (trimRight rest).isEmpty = true
    · rw [if_pos he]
      by_cases ha : isJsSpace a = true
      · simp [ha, noAdjWs]
      · simp only [Bool.not_eq_true] at ha
        simp [ha, noAdjWs]
    · rw [if_neg he]
      cases hr : trimRight rest with
      | nil => simp [hr, List.isEmpty] at he
      | cons b t =>
        rcases trimRight_head rest b t hr with ⟨r, hrest⟩
        have hpair : (!(isJsSpace a && isJsSpace b)) = true := by
          rw [hrest] at h
          simp [noAdjWs] at h ⊢
          tauto
        have htail : noAdjWs (b :: t) = true := by
          rw [← hr]
          exact ih (noAdjWs_tail _ _ h)
        simp [noAdjWs, htail]
        simpa using hpair

theorem headNotWs_trimRight (l : List Char) (h : headNotWs l = true) :
    headNotWs (trimRight l) = true := by
  cases l with
  | nil => exact h
  | cons a rest =>
    rw [trimRight_cons]
    by_cases he : (trimRight rest).isEmpty = true
    · rw [if_pos he]
      by_cases ha : isJsSpace a = true
      · simp [ha, headNotWs]
      · simp only [Bool.not_eq_true] at ha
        simp [ha, headNotWs]
    · rw [if_neg he]
      simpa [headNotWs] using h

/-! ## Normal form of `cleanText` -/

theorem cleanText_data (s : String) :
    (cleanText s).data = trimRight (trimLeft (collapseWs
      ((s.data.filter (fun c => c != '\n')).filter (fun c => c != '\t')))) := rfl

theorem cleanText_noAdj (s : String) : noAdjWs (cleanText s).data = true := by
  rw [cleanText_data]
  exact noAdjWs_trimRight _ (noAdjWs_trimLeft _ (noAdjWs_collapseWs _))

theorem cleanText_headNotWs (s : String) : headNotWs (cleanText s).data = true := by
  rw [cleanText_data]
  exact headNotWs_trimRight _ (headNotWs_trimLeft _)

theorem cleanText_lastNotWs (s : String) : lastNotWs (cleanText s).data = true := by
  rw [cleanText_data]
  exact lastNotWs_trimRight _

theorem mem_cleanText (s : String) (c : Char) (h : c ∈ (cleanText s).data) :
    c ∈ s.data ∧ c ≠ '\n' ∧ c ≠ '\t' := by
  rw [cleanText_data] at h
  have h1 := mem_trimLeft _ _ (mem_trimRight _ _ h)
  have h2 := mem_collapseWs _ _ h1
  rcases List.mem_filter.mp h2 with ⟨h3, ht⟩
  rcases List.mem_filter.mp h3 with ⟨h4, hn⟩
  refine ⟨h4, ?_, ?_⟩
  · simpa using hn
  · simpa using ht

/-- C7: `cleanText` deletes all newline and tab characters (not replacing
them with a space), collapses every run of two or more whitespace characters
into the empty string while preserving single spaces, and trims leading and
trailing whitespace; it is total, maps `""` to `""`, `"a\n\tb"` to `"ab"` and
`"a    b"` to `"ab"`.  The run-collapsing and trimming are witnessed by the
normal form of the output: no newline or tab survives, no two adjacent output
characters are whitespace, and the output neither starts nor ends with
whitespace. -/
theorem C7_cleanText_normalizer (s : String) :
    cleanText "" = "" ∧
    cleanText "a\n\tb" = "ab" ∧
    cleanText "a    b" = "ab" ∧
    cleanText "a b" = "a b" ∧
    ('\n' ∉ (cleanText s).data ∧ '\t' ∉ (cleanText s).data) ∧
    noAdjWs (cleanText s).data = true ∧
    headNotWs (cleanText s).data = true ∧
    lastNotWs (cleanText s).data = true := by
  refine ⟨rfl, rfl, rfl, rfl, ⟨?_, ?_⟩, cleanText_noAdj s,
    cleanText_headNotWs s, cleanText_lastNotWs s⟩
  · intro h
    exact ((mem_cleanText s _ h).2.1) rfl
  · intro h
    exact ((mem_cleanText s _ h).2.2) rfl

/-- Witness for C7 at concrete inputs. -/
theorem C7_cleanText_normalizer_witness :
    cleanText "a\n\tb" = "ab" ∧ noAdjWs (cleanText "a  b").data = true :=
  ⟨(C7_cleanText_normalizer "x").2.1,
    (C7_cleanText_normalizer "a  b").2.2.2.2.2.1⟩

/-- C10: the normalizer is idempotent — its output contains no newline, no
tab, no run of two or more whitespace characters, and no leading or trailing
whitespace, so running `cleanText` again changes nothing. -/
theorem C10_cleanText_idempotent (s : String) :
    cleanText (cleanText s) = cleanText s := by
  have hn : (cleanText s).data.filter (fun c => c != '\n') = (cleanText s).data :=
    List.filter_eq_self.mpr (fun a ha => by
      simpa using (mem_cleanText s a ha).2.1)
  have ht : (cleanText s).data.filter (fun c => c != '\t') = (cleanText s).data :=
    List.filter_eq_self.mpr (fun a ha => by
      simpa using (mem_cleanText s a ha).2.2)
  have hstep : ((cleanText s).data.filter (fun c => c != '\n')).filter
      (fun c => c != '\t') = (cleanText s).data := by rw [hn, ht]
  have hcw : collapseWs (cleanText s).data = (cleanText s).data :=
    collapseWs_eq_self _ (cleanText_noAdj s)
  have htl : trimLeft (cleanText s).data = (cleanText s).data :=
    trimLeft_eq_self _ (cleanText_headNotWs s)
  have htr : trimRight (cleanText s).data = (cleanText s).data :=
    trimRight_eq_self _ (cleanText_lastNotWs s)
  show String.mk (trimRight (trimLeft (collapseWs
    (((cleanText s).data.filter (fun c => c != '\n')).filter
      (fun c => c != '\t'))))) = cleanText s
  rw [hstep, hcw, htl, htr]

/-! ## Lemmas about the time-pattern matcher -/

theorem takeWhile_word_append (tzl post : List Char)
    (hall : ∀ c ∈ tzl, isWordChar c = true) :
    (tzl ++ ')' :: post).takeWhile isWordChar = tzl ∧
    (tzl ++ ')' :: post).dropWhile isWordChar = ')' :: post := by
  induction tzl with
  | nil =>
    have hp : isWordChar ')' = false := by decide
    simp [List.takeWhile_cons, List.dropWhile_cons, hp]
  | cons c t ih =>
    have hc : isWordChar c = true := hall c (by simp)
    have ih' := ih (fun x hx => hall x (by simp [hx]))
    simp [List.takeWhile_cons, List.dropWhile_cons, hc, ih'.1, ih'.2]

theorem matchTimeAt_pattern (d1 d2 d3 d4 w : Char) (tzl post : List Char)
    (hd1 : isDigitChar d1 = true) (hd2 : isDigitChar d2 = true)
    (hd3 : isDigitChar d3 = true) (hd4 : isDigitChar d4 = true)
    (hw : isJsSpace w = true) (hne : tzl ≠ [])
    (hall : ∀ c ∈ tzl, isWordChar c = true) :
    matchTimeAt (d1 :: d2 :: ':' :: d3 :: d4 :: w :: '(' :: (tzl ++ ')' :: post)) =
      some (d1, d2, d3, d4, ⟨tzl⟩) := by
  have htw := takeWhile_word_append tzl post hall
  have hne' : tzl.isEmpty = false := by
    cases tzl with
    | nil => exact absurd rfl hne
    | cons a t => rfl
  simp [matchTimeAt, hd1, hd2, hd3, hd4, hw, htw.1, htw.2, hne']

theorem matchTimeAt_some (l : List Char) (d1 d2 d3 d4 : Char) (tz : String)
    (h : matchTimeAt l = some (d1, d2, d3, d4, tz)) :
    ∃ w post,
      l = d1 :: d2 :: ':' :: d3 :: d4 :: w :: '(' :: (tz.data ++ ')' :: post) ∧
      isDigitChar d1 = true ∧ isDigitChar d2 = true ∧ isDigitChar d3 = true ∧
      isDigitChar d4 = true ∧ isJsSpace w = true ∧ tz.data ≠ [] ∧
      ∀ c ∈ tz.data, isWordChar c = true := by
  match l with
  | [] => simp [matchTimeAt] at h
  | [a] => simp [matchTimeAt] at h
  | [a, b] => simp [matchTimeAt] at h
  | [a, b, c] => simp [matchTimeAt] at h
  | [a, b, c, d] => simp [matchTimeAt] at h
  | [a, b, c, d, e] => simp [matchTimeAt] at h
  | [a, b, c, d, e, f] => simp [matchTimeAt] at h
  | a :: b :: c :: d :: e :: f :: g :: rest =>
    simp only [matchTimeAt] at h
    by_cases h1 : (isDigitChar a && isDigitChar b && (c == ':') && isDigitChar d &&
        isDigitChar e && isJsSpace f && (g == '(')) = true
    case neg => simp [h1] at h
    rw [if_pos h1] at h
    by_cases h2 : (rest.takeWhile isWordChar).isEmpty = true
    case pos => simp [h2] at h
    rw [if_neg h2] at h
    by_cases h3 : ((rest.dropWhile isWordChar).head? == some ')') = true
    case neg => simp [h3] at h
    rw [if_pos h3] at h
    simp only [Option.some.injEq, Prod.mk.injEq] at h
    obtain ⟨ha, hb, hd, he, htz⟩ := h
    simp only [Bool.and_eq_true, beq_iff_eq] at h1
    obtain ⟨⟨⟨⟨⟨⟨hda, hdb⟩, hc⟩, hdd⟩, hde⟩, hwf⟩, hg⟩ := h1
    have htzdata : tz.data = rest.takeWhile isWordChar := by
      rw [← htz]
    have hdrop : ∃ tl, rest.dropWhile isWordChar = ')' :: tl := by
      cases hdw : rest.dropWhile isWordChar with
      | nil => rw [hdw] at h3; simp at h3
      | cons x tl =>
        rw [hdw] at h3
        simp at h3
        exact ⟨tl, by rw [h3]⟩
    obtain ⟨tl, hdw⟩ := hdrop
    refine ⟨f, tl, ?_, ?_, ?_, ?_, ?_, ?_, ?_, ?_⟩
    · rw [← ha, ← hb, ← hd, ← he, hc, hg, htzdata, ← hdw,
        List.takeWhile_append_dropWhile]
    · rw [← ha]; exact hda
    · rw [← hb]; exact hdb
    · rw [← hd]; exact hdd
    · rw [← he]; exact hde
    · exact hwf
    · rw [htzdata]
      intro hnil
      rw [hnil] at h2
      exact h2 rfl
    · intro x hx
      rw [htzdata] at hx
      exact List.mem_takeWhile_imp hx

theorem findTimeMatch_some_pattern (l : List Char)
    (d1 d2 d3 d4 : Char) (tz : String)
    (h : findTimeMatch l = some (d1, d2, d3, d4, tz)) : hasTimePatternL l := by
  induction l with
  | nil => simp [findTimeMatch] at h
  | cons a rest ih =>
    cases hm : matchTimeAt (a :: rest) with
    | some r =>
      rw [findTimeMatch, hm] at h
      simp only [Option.some.injEq] at h
      subst h
      rcases matchTimeAt_some _ _ _ _ _ _ hm with
        ⟨w, post, heq, hda, hdb, hdc, hdd, hw, hne, hall⟩
      exact ⟨[], d1, d2, d3, d4, w, tz.data, post, by simpa using heq,
        hda, hdb, hdc, hdd, hw, hne, hall⟩
    | none =>
      rw [findTimeMatch, hm] at h
      rcases ih h with ⟨pre, e1, e2, e3, e4, w, tzl, post, heq, hrest⟩
      exact ⟨a :: pre, e1, e2, e3, e4, w, tzl, post, by rw [heq]; rfl, hrest⟩

theorem findTimeMatch_none_iff (l : List Char) :
    findTimeMatch l = none ↔ ¬ hasTimePatternL l := by
  induction l with
  | nil =>
    constructor
    · intro _ hpat
      rcases hpat with ⟨pre, d1, d2, d3, d4, w, tzl, post, heq, _⟩
      exact absurd heq (by simp)
    · intro _
      rfl
  | cons a rest ih =>
    cases hm : matchTimeAt (a :: rest) with
    | some r =>
      have hfind : findTimeMatch (a :: rest) = some r := by
        rw [findTimeMatch, hm]
      constructor
      · intro hnone
        rw [hfind] at hnone
        exact absurd hnone (by simp)
      · intro hnpat
        exfalso
        apply hnpat
        obtain ⟨r1, r2, r3, r4, tz⟩ := r
        exact findTimeMatch_some_pattern _ _ _ _ _ _ hfind
    | none =>
      have hstep : findTimeMatch (a :: rest) = findTimeMatch rest := by
        rw [findTimeMatch, hm]
      have hiff : hasTimePatternL (a :: rest) ↔ hasTimePatternL rest := by
        constructor
        · intro hpat
          rcases hpat with ⟨pre, d1, d2, d3, d4, w, tzl, post, heq, hdd⟩
          cases pre with
          | nil =>
            exfalso
            obtain ⟨hd1, hd2, hd3, hd4, hw, hne, hall⟩ := hdd
            simp only [List.nil_append] at heq
            rw [heq, matchTimeAt_pattern d1 d2 d3 d4 w tzl post
              hd1 hd2 hd3 hd4 hw hne hall] at hm
            exact absurd hm (by simp)
          | cons p pre' =>
            have heq' : rest = pre' ++ d1 :: d2 :: ':' :: d3 :: d4 :: w :: '(' ::
                (tzl ++ ')' :: post) := by
              have := List.tail_eq_of_cons_eq heq
              simpa using this
            exact ⟨pre', d1, d2, d3, d4, w, tzl, post, heq', hdd⟩
        · intro hpat
          rcases hpat with ⟨pre, d1, d2, d3, d4, w, tzl, post, heq, hdd⟩
          exact ⟨a :: pre, d1, d2, d3, d4, w, tzl, post, by rw [heq]; rfl, hdd⟩
      rw [hstep, ih, hiff]

/-! ## Lemmas about the timezone table -/

theorem lookup_timeZoneOffsets_spec (tz : String) (off : Int)
    (h : List.lookup tz timeZoneOffsets = some off) :
    tz ∈ (["UTC", "GMT", "EST", "EDT", "CST", "CDT", "MST", "MDT", "PST",
      "PDT"] : List String) ∧
    ((∀ c ∈ tz.data, isWordChar c = true) ∧ tz.data ≠ []) ∧
    (-8 ≤ off ∧ off ≤ 0) := by
  by_cases h1 : tz = "UTC"
  · subst h1; simp [timeZoneOffsets, List.lookup] at h
    subst h; exact ⟨by decide, by decide, by decide⟩
  by_cases h2 : tz = "GMT"
  · subst h2; simp [timeZoneOffsets, List.lookup] at h
    subst h; exact ⟨by decide, by decide, by decide⟩
  by_cases h3 : tz = "EST"
  · subst h3; simp [timeZoneOffsets, List.lookup] at h
    subst h; exact ⟨by decide, by decide, by decide⟩
  by_cases h4 : tz = "EDT"
  · subst h4; simp [timeZoneOffsets, List.lookup] at h
    subst h; exact ⟨by decide, by decide, by decide⟩
  by_cases h5 : tz = "CST"
  · subst h5; simp [timeZoneOffsets, List.lookup] at h
    subst h; exact ⟨by decide, by decide, by decide⟩
  by_cases h6 : tz = "CDT"
  · subst h6; simp [timeZoneOffsets, List.lookup] at h
    subst h; exact ⟨by decide, by decide, by decide⟩
  by_cases h7 : tz = "MST"
  · subst h7; simp [timeZoneOffsets, List.lookup] at h
    subst h; exact ⟨by decide, by decide, by decide⟩
  by_cases h8 : tz = "MDT"
  · subst h8; simp [timeZoneOffsets, List.lookup] at h
    subst h; exact ⟨by decide, by decide, by decide⟩
  by_cases h9 : tz = "PST"
  · subst h9; simp [timeZoneOffsets, List.lookup] at h
    subst h; exact ⟨by decide, by decide, by decide⟩
  by_cases h10 : tz = "PDT"
  · subst h10; simp [timeZoneOffsets, List.lookup] at h
    subst h; exact ⟨by decide, by decide, by decide⟩
  exfalso
  have e1 : (tz == "UTC") = false := beq_eq_false_iff_ne.mpr h1
  have e2 : (tz == "GMT") = false := beq_eq_false_iff_ne.mpr h2
  have e3 : (tz == "EST") = false := beq_eq_false_iff_ne.mpr h3
  have e4 : (tz == "EDT") = false := beq_eq_false_iff_ne.mpr h4
  have e5 : (tz == "CST") = false := beq_eq_false_iff_ne.mpr h5
  have e6 : (tz == "CDT") = false := beq_eq_false_iff_ne.mpr h6
  have e7 : (tz == "MST") = false := beq_eq_false_iff_ne.mpr h7
  have e8 : (tz == "MDT") = false := beq_eq_false_iff_ne.mpr h8
  have e9 : (tz == "PST") = false := beq_eq_false_iff_ne.mpr h9
  have e10 : (tz == "PDT") = false := beq_eq_false_iff_ne.mpr h10
  simp [timeZoneOffsets, List.lookup, e1, e2, e3, e4, e5, e6, e7, e8, e9,
    e10] at h

theorem mem_lookup_timeZoneOffsets (tz : String)
    (h : tz ∈ (["UTC", "GMT", "EST", "EDT", "CST", "CDT", "MST", "MDT", "PST",
      "PDT"] : List String)) :
    ∃ off, List.lookup tz timeZoneOffsets = some off := by
  fin_cases h <;> exact ⟨_, rfl⟩

theorem digitVal_bounds (c : Char) (h : isDigitChar c = true) :
    0 ≤ digitVal c ∧ digitVal c ≤ 9 := by
  simp [isDigitChar] at h
  simp [digitVal]
  omega

theorem setUTCHours_fields (ref U M : Int) (hU0 : 0 ≤ U) (hU : U ≤ 23)
    (hM0 : 0 ≤ M) (hM : M ≤ 59) :
    utcHourOf (setUTCHours ref U M) = U ∧
    minuteOf (setUTCHours ref U M) = M ∧
    secondOf (setUTCHours ref U M) = 0 ∧
    msOf (setUTCHours ref U M) = 0 ∧
    dateOf (setUTCHours ref U M) = dateOf ref := by
  unfold setUTCHours utcHourOf minuteOf secondOf msOf dateOf msPerDay
  refine ⟨?_, ?_, ?_, ?_, ?_⟩ <;> omega

/-- C1 (amended): for every input of the exact form `HH:MM (TZ)` with `TZ` in
the offset table, and *provided the computed UTC hour `HH - offset` is at most
23 and the minute is at most 59*, `convertToDate` returns a timestamp whose
UTC hour is `HH - offset` and whose minute is `MM`, with seconds and
milliseconds zero, on the same calendar date as the reference instant.
(Without the proviso the claim fails: `setUTCHours` rolls an out-of-range
hour into the next day — see the counterexample.) -/
theorem C1_time_parser_amended (d1 d2 d3 d4 : Char) (tz : String)
    (off ref : Int)
    (hd1 : isDigitChar d1 = true) (hd2 : isDigitChar d2 = true)
    (hd3 : isDigitChar d3 = true) (hd4 : isDigitChar d4 = true)
    (hlk : List.lookup tz timeZoneOffsets = some off)
    (hH : digitVal d1 * 10 + digitVal d2 - off ≤ 23)
    (hM : digitVal d3 * 10 + digitVal d4 ≤ 59) :
    convertToDate (timeInput d1 d2 d3 d4 tz) ref =
      Except.ok (JsDate.valid
        (setUTCHours ref (digitVal d1 * 10 + digitVal d2 - off)
          (digitVal d3 * 10 + digitVal d4))) ∧
    utcHourOf (setUTCHours ref (digitVal d1 * 10 + digitVal d2 - off)
      (digitVal d3 * 10 + digitVal d4)) =
        digitVal d1 * 10 + digitVal d2 - off ∧
    minuteOf (setUTCHours ref (digitVal d1 * 10 + digitVal d2 - off)
      (digitVal d3 * 10 + digitVal d4)) = digitVal d3 * 10 + digitVal d4 ∧
    secondOf (setUTCHours ref (digitVal d1 * 10 + digitVal d2 - off)
      (digitVal d3 * 10 + digitVal d4)) = 0 ∧
    msOf (setUTCHours ref (digitVal d1 * 10 + digitVal d2 - off)
      (digitVal d3 * 10 + digitVal d4)) = 0 ∧
    dateOf (setUTCHours ref (digitVal d1 * 10 + digitVal d2 - off)
      (digitVal d3 * 10 + digitVal d4)) = dateOf ref := by
  obtain ⟨-, ⟨hall, hne⟩, hoff⟩ := lookup_timeZoneOffsets_spec tz off hlk
  have hmatch := matchTimeAt_pattern d1 d2 d3 d4 ' ' tz.data [] hd1 hd2 hd3 hd4
    (by decide) hne hall
  have heta : (⟨tz.data⟩ : String) = tz := rfl
  have hfind : findTimeMatch (timeInput d1 d2 d3 d4 tz).data =
      some (d1, d2, d3, d4, tz) := by
    show findTimeMatch
      (d1 :: d2 :: ':' :: d3 :: d4 :: ' ' :: '(' :: (tz.data ++ [')'])) =
      some (d1, d2, d3, d4, tz)
    simp only [findTimeMatch, hmatch, heta]
  have hb1 := digitVal_bounds d1 hd1
  have hb2 := digitVal_bounds d2 hd2
  have hb3 := digitVal_bounds d3 hd3
  have hb4 := digitVal_bounds d4 hd4
  have hU0 : 0 ≤ digitVal d1 * 10 + digitVal d2 - off := by omega
  have hM0 : 0 ≤ digitVal d3 * 10 + digitVal d4 := by omega
  have hfields := setUTCHours_fields ref _ _ hU0 hH hM0 hM
  refine ⟨?_, hfields.1, hfields.2.1, hfields.2.2.1, hfields.2.2.2.1,
    hfields.2.2.2.2⟩
  have hget : timeZoneOffsetsGet tz = PropValue.num off := by
    unfold timeZoneOffsetsGet
    rw [hlk]
  simp only [convertToDate, hfind, hget]

/-- Witness for C1 (amended) at `parseTime("05:30 (EST)", epoch)`: UTC hour
10, minute 30, seconds and milliseconds zero, same calendar date as the
reference instant. -/
theorem C1_time_parser_amended_witness :
    convertToDate "05:30 (EST)" 0 = Except.ok (JsDate.valid 37800000) ∧
    utcHourOf 37800000 = 10 ∧ minuteOf 37800000 = 30 ∧
    secondOf 37800000 = 0 ∧ msOf 37800000 = 0 ∧
    dateOf 37800000 = dateOf 0 := by
  have h := C1_time_parser_amended '0' '5' '3' '0' "EST" (-5) 0
    rfl rfl rfl rfl (by decide) (by decide) (by decide)
  have e1 : timeInput '0' '5' '3' '0' "EST" = "05:30 (EST)" := rfl
  have e2 : digitVal '0' * 10 + digitVal '5' - (-5) = 10 := by decide
  have e3 : digitVal '3' * 10 + digitVal '0' = 30 := by decide
  have e4 : setUTCHours 0 10 30 = 37800000 := by decide
  rw [e1, e2, e3, e4] at h
  exact h

/-- C1 counterexample: on the input `"19:00 (EST)"` (which is of the form
`HH:MM (TZ)` with `TZ` in the table) the claimed UTC hour would be
`19 - (-5) = 24`, but the timestamp produced by `convertToDate` has UTC hour
0 on the calendar day *after* the reference date — the hour rolled over, so
neither "UTC hour equals localHour - offset" nor "same calendar date as the
reference date" holds. -/
theorem C1_time_parser_counterexample :
    convertToDate "19:00 (EST)" 0 = Except.ok (JsDate.valid 86400000) ∧
    utcHourOf 86400000 = 0 ∧ minuteOf 86400000 = 0 ∧
    dateOf 86400000 = 1 ∧ dateOf (0 : Int) = 0 := by
  exact ⟨rfl, by decide, by decide, by decide, by decide⟩

theorem timeZoneOffsetsGet_num (tz : String) (off : Int)
    (h : timeZoneOffsetsGet tz = PropValue.num off) :
    List.lookup tz timeZoneOffsets = some off := by
  unfold timeZoneOffsetsGet at h
  cases hl : List.lookup tz timeZoneOffsets with
  | some o =>
    rw [hl] at h
    simp at h
    rw [h]
  | none =>
    rw [hl] at h
    by_cases hp : tz ∈ objectPrototypeProps
    · simp [hp] at h
    · simp [hp] at h

theorem timeZoneOffsetsGet_inherited (tz : String)
    (h : timeZoneOffsetsGet tz = PropValue.inherited) :
    tz ∈ objectPrototypeProps ∧
    tz ∉ (["UTC", "GMT", "EST", "EDT", "CST", "CDT", "MST", "MDT", "PST",
      "PDT"] : List String) := by
  unfold timeZoneOffsetsGet at h
  cases hl : List.lookup tz timeZoneOffsets with
  | some o =>
    rw [hl] at h
    simp at h
  | none =>
    rw [hl] at h
    by_cases hp : tz ∈ objectPrototypeProps
    · refine ⟨hp, ?_⟩
      intro hmem
      obtain ⟨off, ho⟩ := mem_lookup_timeZoneOffsets tz hmem
      rw [ho] at hl
      simp at hl
    · simp [hp] at h

theorem timeZoneOffsetsGet_undef_iff (tz : String) :
    timeZoneOffsetsGet tz = PropValue.undef ↔
      (tz ∉ (["UTC", "GMT", "EST", "EDT", "CST", "CDT", "MST", "MDT", "PST",
        "PDT"] : List String) ∧ tz ∉ objectPrototypeProps) := by
  unfold timeZoneOffsetsGet
  cases hl : List.lookup tz timeZoneOffsets with
  | some off =>
    show PropValue.num off = PropValue.undef ↔ _
    constructor
    · intro h
      exact absurd h (by simp)
    · intro h
      exact absurd (lookup_timeZoneOffsets_spec tz off hl).1 h.1
  | none =>
    show (if tz ∈ objectPrototypeProps then PropValue.inherited
      else PropValue.undef) = PropValue.undef ↔ _
    by_cases hp : tz ∈ objectPrototypeProps
    · rw [if_pos hp]
      constructor
      · intro h
        exact absurd h (by simp)
      · intro h
        exact absurd hp h.2
    · rw [if_neg hp]
      constructor
      · intro _
        refine ⟨?_, hp⟩
        intro hmem
        obtain ⟨off, ho⟩ := mem_lookup_timeZoneOffsets tz hmem
        rw [ho] at hl
        simp at hl
      · intro _
        rfl

/-- C2 counterexample: the abbreviation `toString` matches `\w+` and is not
one of the ten table entries, yet `convertToDate "05:30 (toString)"` does
*not* fail with the unknown-timezone error — the object-literal bracket
access finds `Object.prototype.toString`, the `undefined` guard passes, and
the function returns an Invalid Date. -/
theorem C2_counterexample :
    convertToDate "05:30 (toString)" 0 = Except.ok JsDate.invalid ∧
    findTimeMatch "05:30 (toString)".data =
      some ('0', '5', '3', '0', "toString") ∧
    "toString" ∉ (["UTC", "GMT", "EST", "EDT", "CST", "CDT", "MST", "MDT",
      "PST", "PDT"] : List String) :=
  ⟨rfl, rfl, by decide⟩

/-- C2 (amended): `convertToDate` fails with the parse error exactly when
the input does not contain the pattern `<two-digit hour>:<two-digit minute>
(<timezone abbreviation>)` (the source regex is unanchored, so "matching the
pattern" is containment of such a substring).  When the pattern matches, it
fails with the unknown-timezone error exactly when the (first) matched
abbreviation is neither one of the ten table entries nor one of the
`Object.prototype` property names; for the latter, the bracket access finds
the inherited member, the `undefined` guard passes, and an Invalid Date is
returned without any error.  In particular `"05:30 (XYZ)"` gives the
unknown-timezone error and `"5:30pm"` the parse error. -/
theorem C2_parse_failure_modes (s : String) (now : Int) :
    (convertToDate s now = Except.error TimeError.parseError ↔
      ¬ hasTimePattern s) ∧
    (∀ d1 d2 d3 d4 tz, findTimeMatch s.data = some (d1, d2, d3, d4, tz) →
      (convertToDate s now = Except.error TimeError.unknownTimezone ↔
        (tz ∉ (["UTC", "GMT", "EST", "EDT", "CST", "CDT", "MST", "MDT", "PST",
          "PDT"] : List String) ∧ tz ∉ objectPrototypeProps))) ∧
    (∀ d1 d2 d3 d4 tz, findTimeMatch s.data = some (d1, d2, d3, d4, tz) →
      tz ∈ objectPrototypeProps →
      convertToDate s now = Except.ok JsDate.invalid) ∧
    convertToDate "05:30 (XYZ)" now = Except.error TimeError.unknownTimezone ∧
    convertToDate "5:30pm" now = Except.error TimeError.parseError := by
  refine ⟨?_, ?_, ?_, rfl, rfl⟩
  · cases hm : findTimeMatch s.data with
    | none =>
      simp only [convertToDate, hm]
      constructor
      · intro _
        exact (findTimeMatch_none_iff s.data).mp hm
      · intro _
        trivial
    | some r =>
      obtain ⟨d1, d2, d3, d4, tz⟩ := r
      have hpat : hasTimePattern s := findTimeMatch_some_pattern _ _ _ _ _ _ hm
      simp only [convertToDate, hm]
      cases hg : timeZoneOffsetsGet tz with
      | num off =>
        constructor
        · intro he
          simp at he
        · intro hnp
          exact absurd hpat hnp
      | inherited =>
        constructor
        · intro he
          simp at he
        · intro hnp
          exact absurd hpat hnp
      | undef =>
        constructor
        · intro he
          simp at he
        · intro hnp
          exact absurd hpat hnp
  · intro d1 d2 d3 d4 tz hm
    simp only [convertToDate, hm]
    cases hg : timeZoneOffsetsGet tz with
    | num off =>
      constructor
      · intro he
        simp at he
      · intro hni
        exact absurd (lookup_timeZoneOffsets_spec tz off
          (timeZoneOffsetsGet_num tz off hg)).1 hni.1
    | inherited =>
      constructor
      · intro he
        simp at he
      · intro hni
        exact absurd (timeZoneOffsetsGet_inherited tz hg).1 hni.2
    | undef =>
      constructor
      · intro _
        exact (timeZoneOffsetsGet_undef_iff tz).mp hg
      · intro _
        trivial
  · intro d1 d2 d3 d4 tz hm hproto
    simp only [convertToDate, hm]
    cases hg : timeZoneOffsetsGet tz with
    | num off =>
      exfalso
      exact absurd hproto
        (by
          intro hp
          have := (lookup_timeZoneOffsets_spec tz off
            (timeZoneOffsetsGet_num tz off hg)).1
          fin_cases this <;> simp [objectPrototypeProps] at hp)
    | inherited => rfl
    | undef =>
      exact absurd hproto ((timeZoneOffsetsGet_undef_iff tz).mp hg).2

/-- Witness for C2 (amended): the two concrete error examples and the
prototype-chain case, each obtained through the characterization with its
hypotheses discharged at concrete inputs. -/
theorem C2_parse_failure_modes_witness :
    convertToDate "05:30 (XYZ)" 0 = Except.error TimeError.unknownTimezone ∧
    convertToDate "05:30 (valueOf)" 0 = Except.ok JsDate.invalid ∧
    convertToDate "5:30pm" 0 = Except.error TimeError.parseError :=
  ⟨((C2_parse_failure_modes "05:30 (XYZ)" 0).2.1 '0' '5' '3' '0' "XYZ"
      rfl).mpr (by decide),
    (C2_parse_failure_modes "05:30 (valueOf)" 0).2.2.1 '0' '5' '3' '0'
      "valueOf" rfl (by decide),
    (C2_parse_failure_modes "5:30pm" 0).2.2.2.2⟩

/-! ## The orchestrator (C4) -/

theorem extractFromDoc_url (url : String) (doc : List Node) (now : Int) :
    (extractFromDoc url doc now).url = some url := rfl

theorem emptyMosque_url (url : String) : (emptyMosque url).url = some url := rfl

theorem discoverURLs_ne_empty (doc : List Node) (u : String)
    (h : u ∈ discoverURLs doc) : u ≠ "" := by
  simp only [discoverURLs, List.mem_flatMap, List.mem_map] at h
  rcases h with ⟨d, _, a, _, hu⟩
  intro he
  rw [he] at hu
  have hlen := congrArg String.length hu
  rw [String.length_append] at hlen
  have h27 : DOMAIN.length = 27 := rfl
  have h0 : "".length = 0 := rfl
  rw [h27, h0] at hlen
  omega

theorem scrape_step_url (fetch : String → Option (List Node)) (now : Int)
    (u : String) :
    (match fetch u with
      | none => emptyMosque u
      | some doc => extractFromDoc u doc now).url = some u := by
  cases fetch u with
  | none => rfl
  | some doc => rfl

/-- C4: the orchestrator returns exactly one record per discovered link, in
discovery order, each carrying that link as its (non-empty) URL — so a
per-URL failure is non-fatal and does not drop or reorder records — while an
index-page fetch/parse failure yields the empty sequence. -/
theorem C4_orchestrator (fetch : String → Option (List Node)) (now : Int) :
    (fetch indexURL = none → scrape fetch now = []) ∧
    (∀ indexDoc, fetch indexURL = some indexDoc →
      (scrape fetch now).map Mosque.url =
        (discoverURLs indexDoc).map (fun u => some u) ∧
      (∀ m ∈ scrape fetch now, ∃ u, m.url = some u ∧ u ≠ "")) := by
  constructor
  · intro h
    simp [scrape, h]
  · intro indexDoc hidx
    constructor
    · simp only [scrape, hidx, List.map_map]
      apply List.map_congr_left
      intro u _
      exact scrape_step_url fetch now u
    · intro m hm
      simp only [scrape, hidx, List.mem_map] at hm
      rcases hm with ⟨u, hu, hstep⟩
      refine ⟨u, ?_, discoverURLs_ne_empty indexDoc u hu⟩
      rw [← hstep]
      exact scrape_step_url fetch now u

/-- Witness for C4: with a dead network the run is empty; with an index page
listing two links whose detail fetches both fail, the two records appear in
order with the discovered URLs. -/
theorem C4_orchestrator_witness :
    scrape (fun _ => none) 0 = [] ∧
    (scrape cexFetchIdxOnly 0).map Mosque.url =
      (discoverURLs cexIndexDoc).map (fun u => some u) :=
  ⟨(C4_orchestrator (fun _ => none) 0).1 rfl,
    ((C4_orchestrator cexFetchIdxOnly 0).2 cexIndexDoc rfl).1⟩

/-! ## Records for failed URLs (C3) -/

/-- C3 counterexample: the single discovered URL's extraction hits a
field-extraction failure (there is no `.microLink` element, so the first
prayer-time conversion throws `ParseError`), yet the returned record is not
url-only — its address is the populated text `"addr"` and its description the
populated empty string, while `fajr` is absent. -/
theorem C3_counterexample :
    (scrape cexFetchC3 0).map (fun m =>
      (m.url, m.address, m.description, m.prayerTimings.fajr)) =
      [(some (DOMAIN ++ "/m1"), some "addr", some "", none)] ∧
    convertToDate
      (cleanText (textOfEq (selectClass "microLink" cexDetailDoc3) 0)) 0 =
      Except.error TimeError.parseError :=
  ⟨rfl, rfl⟩

/-- C3 (amended): a discovered URL yields a record with *only* `url`
populated exactly when its detail-page fetch (or parse) fails; when the fetch
succeeds, the record at that position is the extracted one, whose address,
description and both tag lists are always populated with the extracted
values — even when a field-extraction (time-parse) failure aborts the
remaining prayer-time assignments — and timing slots assigned before a
failing conversion are kept while the failing and subsequent slots stay
absent. -/
theorem C3_stub_on_fetch_failure (fetch : String → Option (List Node))
    (now : Int) (indexDoc : List Node)
    (hidx : fetch indexURL = some indexDoc)
    (i : Nat) (url : String)
    (hurl : (discoverURLs indexDoc).get? i = some url) :
    (fetch url = none →
      (scrape fetch now).get? i = some
        { url := some url, address := none, description := none,
          quickFacts := [], governance := [], prayerTimings := {} }) ∧
    (∀ doc, fetch url = some doc →
      (scrape fetch now).get? i = some (extractFromDoc url doc now) ∧
      (extractFromDoc url doc now).address =
        some (cleanText (textOfEq (selectClass "bodyLink" doc) 0)) ∧
      (extractFromDoc url doc now).description =
        some (cleanText (textOfEq (selectClass "bodyLink" doc) 1)) ∧
      (extractFromDoc url doc now).quickFacts =
        (findDescEq (selectTag "tbody" doc) 212 (hasTagB "div")).map
          (fun d => cleanText (textContent d)) ∧
      (extractFromDoc url doc now).governance =
        (findDescEq (selectTag "tbody" doc) 214 (hasTagB "div")).map
          (fun d => cleanText (textContent d))) ∧
    (∀ doc t0 e, fetch url = some doc →
      convertToDate (cleanText (textOfEq (selectClass "microLink" doc) 0)) now
        = Except.ok t0 →
      convertToDate (cleanText (textOfEq (selectClass "microLink" doc) 1)) now
        = Except.error e →
      (extractFromDoc url doc now).prayerTimings =
        { fajr := some t0, snrs := none, dhur := none, asr := none,
          magh := none, isha := none }) := by
  refine ⟨?_, ?_, ?_⟩
  · intro hfail
    simp only [scrape, hidx]
    rw [List.get?_map, hurl]
    simp [hfail, emptyMosque]
  · intro doc hsucc
    refine ⟨?_, rfl, rfl, rfl, rfl⟩
    simp only [scrape, hidx]
    rw [List.get?_map, hurl]
    simp [hsucc]
  · intro doc t0 e _ h0 h1
    show extractTimings (selectClass "microLink" doc) now = _
    simp only [extractTimings, h0, h1]

/-- Witness for C3 (amended): with the index-only oracle, the first record is
the url-only stub; with the C3 oracle, the fetched page's record keeps its
populated address. -/
theorem C3_stub_on_fetch_failure_witness :
    (scrape cexFetchIdxOnly 0).get? 0 = some
      { url := some (DOMAIN ++ "/m1"), address := none, description := none,
        quickFacts := [], governance := [], prayerTimings := {} } ∧
    (scrape cexFetchC3 0).get? 0 =
      some (extractFromDoc (DOMAIN ++ "/m1") cexDetailDoc3 0) ∧
    (extractFromDoc (DOMAIN ++ "/m1") cexDetailDocOneTime 0).prayerTimings =
      { fajr := some (JsDate.valid 37800000), snrs := none, dhur := none,
        asr := none, magh := none, isha := none } :=
  ⟨(C3_stub_on_fetch_failure cexFetchIdxOnly 0 cexIndexDoc rfl 0
      (DOMAIN ++ "/m1") rfl).1 rfl,
    ((C3_stub_on_fetch_failure cexFetchC3 0 [titleDiv "/m1"] rfl 0
      (DOMAIN ++ "/m1") rfl).2.1 cexDetailDoc3 rfl).1,
    (C3_stub_on_fetch_failure (fun u => if u = indexURL
        then some [titleDiv "/m1"] else some cexDetailDocOneTime) 0
      [titleDiv "/m1"] rfl 0 (DOMAIN ++ "/m1") rfl).2.2 cexDetailDocOneTime
      (JsDate.valid 37800000) TimeError.parseError rfl rfl rfl⟩

/-! ## Body-text fields (C5) -/

/-- C5 counterexample: on a detail document with *zero* body-text matches the
fields are not absent — cheerio's `.text()` of an empty selection is `""`, so
the source assigns the (present) empty string to both address and
description. -/
theorem C5_counterexample :
    (extractFromDoc "u" [] 0).address = some "" ∧
    (extractFromDoc "u" [] 0).description = some "" :=
  ⟨rfl, rfl⟩

/-- C5 (amended): with fewer than two `.bodyLink` matches the respective
field(s) are set to the (present) empty string — never left absent, and no
error is raised; when both matches exist, address is the normalized text of
the first and description the normalized text of the second. -/
theorem C5_body_text_fields (url : String) (doc : List Node) (now : Int) :
    (selectClass "bodyLink" doc = [] →
      (extractFromDoc url doc now).address = some "" ∧
      (extractFromDoc url doc now).description = some "") ∧
    (∀ a, selectClass "bodyLink" doc = [a] →
      (extractFromDoc url doc now).address =
        some (cleanText (textContent a)) ∧
      (extractFromDoc url doc now).description = some "") ∧
    (∀ a b rest, selectClass "bodyLink" doc = a :: b :: rest →
      (extractFromDoc url doc now).address =
        some (cleanText (textContent a)) ∧
      (extractFromDoc url doc now).description =
        some (cleanText (textContent b))) := by
  have haddr : (extractFromDoc url doc now).address =
      some (cleanText (textOfEq (selectClass "bodyLink" doc) 0)) := rfl
  have hdesc : (extractFromDoc url doc now).description =
      some (cleanText (textOfEq (selectClass "bodyLink" doc) 1)) := rfl
  refine ⟨?_, ?_, ?_⟩
  · intro h
    rw [haddr, hdesc, h]
    exact ⟨rfl, rfl⟩
  · intro a h
    rw [haddr, hdesc, h]
    exact ⟨rfl, rfl⟩
  · intro a b rest h
    rw [haddr, hdesc, h]
    exact ⟨rfl, rfl⟩

/-- Witness for C5: a document whose single body-text element has text
`addr` gets that address and an empty-string (not absent) description. -/
theorem C5_body_text_fields_witness :
    (extractFromDoc "u" cexDetailDoc3 0).address = some "addr" ∧
    (extractFromDoc "u" cexDetailDoc3 0).description = some "" := by
  have h := (C5_body_text_fields "u" cexDetailDoc3 0).2.1
    (Node.elem "div" ["bodyLink"] none [Node.text "addr"]) rfl
  have he : some (cleanText (textContent
      (Node.elem "div" ["bodyLink"] none [Node.text "addr"]))) = some "addr" := rfl
  exact ⟨h.1.trans he, h.2⟩

/-! ## Prayer-timing slots (C6) -/

theorem textOfEq_none (sel : List Node) (i : Nat) (h : sel.length ≤ i) :
    textOfEq sel i = "" := by
  unfold textOfEq
  rw [List.get?_eq_none.mpr h]

theorem convertToDate_empty (now : Int) :
    convertToDate (cleanText "") now = Except.error TimeError.parseError := rfl

theorem extractFromDoc_prayerTimings (url : String) (doc : List Node)
    (now : Int) :
    (extractFromDoc url doc now).prayerTimings =
      extractTimings (selectClass "microLink" doc) now := rfl

/-- C6: the `.microLink` elements are assigned by document-order index 0..5
to the six slots; an index beyond the available count yields a parse failure
on the empty text, and any parse failure leaves that slot absent while the
error is caught at record level (extraction still returns a record, fields
before the failure kept).  With exactly 4 parseable elements, the first four
slots are populated and maghrib and isha are absent. -/
theorem C6_prayer_timing_slots (url : String) (doc : List Node) (now : Int) :
    (∀ t0 t1 t2 t3,
      (selectClass "microLink" doc).length = 4 →
      convertToDate (cleanText (textOfEq (selectClass "microLink" doc) 0)) now
        = Except.ok t0 →
      convertToDate (cleanText (textOfEq (selectClass "microLink" doc) 1)) now
        = Except.ok t1 →
      convertToDate (cleanText (textOfEq (selectClass "microLink" doc) 2)) now
        = Except.ok t2 →
      convertToDate (cleanText (textOfEq (selectClass "microLink" doc) 3)) now
        = Except.ok t3 →
      (extractFromDoc url doc now).prayerTimings =
        { fajr := some t0, snrs := some t1, dhur := some t2, asr := some t3,
          magh := none, isha := none }) ∧
    (∀ e, convertToDate
        (cleanText (textOfEq (selectClass "microLink" doc) 0)) now =
        Except.error e →
      (extractFromDoc url doc now).prayerTimings.fajr = none) ∧
    ((selectClass "microLink" doc).length ≤ 4 →
      (extractFromDoc url doc now).prayerTimings.magh = none) ∧
    ((selectClass "microLink" doc).length ≤ 5 →
      (extractFromDoc url doc now).prayerTimings.isha = none) := by
  rw [extractFromDoc_prayerTimings]
  refine ⟨?_, ?_, ?_, ?_⟩
  · intro t0 t1 t2 t3 hlen h0 h1 h2 h3
    have h4 : convertToDate
        (cleanText (textOfEq (selectClass "microLink" doc) 4)) now =
        Except.error TimeError.parseError := by
      rw [textOfEq_none _ 4 (by omega)]
      exact convertToDate_empty now
    simp only [extractTimings, h0, h1, h2, h3, h4]
  · intro e h0
    simp only [extractTimings, h0]
  · intro hlen
    have h4 : convertToDate
        (cleanText (textOfEq (selectClass "microLink" doc) 4)) now =
        Except.error TimeError.parseError := by
      rw [textOfEq_none _ 4 (by omega)]
      exact convertToDate_empty now
    cases hc0 : convertToDate
        (cleanText (textOfEq (selectClass "microLink" doc) 0)) now with
    | error e => simp only [extractTimings, hc0]
    | ok t0 =>
      cases hc1 : convertToDate
          (cleanText (textOfEq (selectClass "microLink" doc) 1)) now with
      | error e => simp only [extractTimings, hc0, hc1]
      | ok t1 =>
        cases hc2 : convertToDate
            (cleanText (textOfEq (selectClass "microLink" doc) 2)) now with
        | error e => simp only [extractTimings, hc0, hc1, hc2]
        | ok t2 =>
          cases hc3 : convertToDate
              (cleanText (textOfEq (selectClass "microLink" doc) 3)) now with
          | error e => simp only [extractTimings, hc0, hc1, hc2, hc3]
          | ok t3 => simp only [extractTimings, hc0, hc1, hc2, hc3, h4]
  · intro hlen
    have h5 : convertToDate
        (cleanText (textOfEq (selectClass "microLink" doc) 5)) now =
        Except.error TimeError.parseError := by
      rw [textOfEq_none _ 5 (by omega)]
      exact convertToDate_empty now
    cases hc0 : convertToDate
        (cleanText (textOfEq (selectClass "microLink" doc) 0)) now with
    | error e => simp only [extractTimings, hc0]
    | ok t0 =>
      cases hc1 : convertToDate
          (cleanText (textOfEq (selectClass "microLink" doc) 1)) now with
      | error e => simp only [extractTimings, hc0, hc1]
      | ok t1 =>
        cases hc2 : convertToDate
            (cleanText (textOfEq (selectClass "microLink" doc) 2)) now with
        | error e => simp only [extractTimings, hc0, hc1, hc2]
        | ok t2 =>
          cases hc3 : convertToDate
              (cleanText (textOfEq (selectClass "microLink" doc) 3)) now with
          | error e => simp only [extractTimings, hc0, hc1, hc2, hc3]
          | ok t3 =>
            cases hc4 : convertToDate
                (cleanText (textOfEq (selectClass "microLink" doc) 4)) now with
            | error e => simp only [extractTimings, hc0, hc1, hc2, hc3, hc4]
            | ok t4 =>
              simp only [extractTimings, hc0, hc1, hc2, hc3, hc4, h5]

/-- Witness for C6: a detail page with exactly four parseable `.microLink`
times populates the first four slots and leaves maghrib and isha absent. -/
theorem C6_prayer_timing_slots_witness :
    (extractFromDoc "u" cexDetailDoc6 0).prayerTimings =
      { fajr := some (JsDate.valid 37800000),
        snrs := some (JsDate.valid 42300000),
        dhur := some (JsDate.valid 61800000),
        asr := some (JsDate.valid 73200000), magh := none, isha := none } :=
  (C6_prayer_timing_slots "u" cexDetailDoc6 0).1 (JsDate.valid 37800000)
    (JsDate.valid 42300000) (JsDate.valid 61800000) (JsDate.valid 73200000)
    rfl rfl rfl rfl rfl

/-! ## Quick facts and governance (C8) -/

/-- C8 counterexample: the source uses `.find("div")` on the 213th `tbody`,
which selects *all descendant* `div`s, so a `div` nested inside another
contributes its text a second time (`["x", "x"]`), while the spec's "direct
child marker element" reading yields it once (`["x"]`). -/
theorem C8_counterexample :
    (extractFromDoc "u" cexDoc8 0).quickFacts = ["x", "x"] ∧
    quickFactsDirectChildrenSpec cexDoc8 = ["x"] :=
  ⟨rfl, rfl⟩

/-- C8 (amended): `quickFacts` is the sequence of normalized texts of every
*descendant* `div` (at any depth, in document order) of the element at fixed
ordinal position 212 among all `tbody` elements, and `governance` likewise
from position 214; when the document has no element at that position the list
is empty. -/
theorem C8_tag_lists (url : String) (doc : List Node) (now : Int) :
    (extractFromDoc url doc now).quickFacts =
      (findDescEq (selectTag "tbody" doc) 212 (hasTagB "div")).map
        (fun d => cleanText (textContent d)) ∧
    (extractFromDoc url doc now).governance =
      (findDescEq (selectTag "tbody" doc) 214 (hasTagB "div")).map
        (fun d => cleanText (textContent d)) ∧
    ((selectTag "tbody" doc).length ≤ 212 →
      (extractFromDoc url doc now).quickFacts = []) ∧
    ((selectTag "tbody" doc).length ≤ 214 →
      (extractFromDoc url doc now).governance = []) := by
  refine ⟨rfl, rfl, ?_, ?_⟩
  · intro h
    show (findDescEq (selectTag "tbody" doc) 212 (hasTagB "div")).map
      (fun d => cleanText (textContent d)) = []
    unfold findDescEq
    rw [List.get?_eq_none.mpr h]
    rfl
  · intro h
    show (findDescEq (selectTag "tbody" doc) 214 (hasTagB "div")).map
      (fun d => cleanText (textContent d)) = []
    unfold findDescEq
    rw [List.get?_eq_none.mpr h]
    rfl

/-- Witness for C8 (amended): the nested-div document follows the descendant
characterization, and a document without a 213th `tbody` gets an empty
quick-facts list. -/
theorem C8_tag_lists_witness :
    (extractFromDoc "u" cexDoc8 0).quickFacts =
      (findDescEq (selectTag "tbody" cexDoc8) 212 (hasTagB "div")).map
        (fun d => cleanText (textContent d)) ∧
    (extractFromDoc "u" ([] : List Node) 0).quickFacts = [] :=
  ⟨(C8_tag_lists "u" cexDoc8 0).1,
    (C8_tag_lists "u" [] 0).2.2.1 (by decide)⟩

/-! ## Link discovery (C9) -/

theorem sum_map_eq_length {α : Type} (l : List α) (f : α → Nat)
    (h : ∀ a ∈ l, f a = 1) : (l.map f).sum = l.length := by
  induction l with
  | nil => rfl
  | cons a rest ih =>
    simp only [List.map_cons, List.sum_cons, List.length_cons,
      h a (by simp)]
    rw [ih (fun x hx => h x (by simp [hx]))]
    omega

/-- C9: link discovery returns one URL for each anchor descendant of each
title-block container (duplicates kept), each URL being `DOMAIN` concatenated
with the anchor's link target; no matching container yields the empty list;
and N containers with exactly one anchor each yield exactly N URLs. -/
theorem C9_link_discovery (doc : List Node) :
    discoverURLs doc =
      ((selectClass "titleBS" doc).flatMap (findDesc (hasTagB "a"))).map
        (fun a => DOMAIN ++ hrefAttr a) ∧
    (selectClass "titleBS" doc = [] → discoverURLs doc = []) ∧
    ((∀ d ∈ selectClass "titleBS" doc,
        (findDesc (hasTagB "a") d).length = 1) →
      (discoverURLs doc).length = (selectClass "titleBS" doc).length) := by
  refine ⟨?_, ?_, ?_⟩
  · rw [List.map_flatMap]
    rfl
  · intro h
    simp [discoverURLs, h]
  · intro h
    rw [discoverURLs, List.length_flatMap]
    have hc : (selectClass "titleBS" doc).map
        (List.length ∘ fun d => (findDesc (hasTagB "a") d).map
          (fun link => DOMAIN ++ hrefAttr link)) =
        (selectClass "titleBS" doc).map (fun _ => 1) := by
      apply List.map_congr_left
      intro d hd
      simp [h d hd]
    rw [hc]
    exact sum_map_eq_length _ _ (fun a _ => rfl)

/-- Witness for C9: two containers with one anchor each yield two URLs in
document order, equal to `DOMAIN ++ href`. -/
theorem C9_link_discovery_witness :
    discoverURLs cexIndexDoc = [DOMAIN ++ "/m1", DOMAIN ++ "/m2"] ∧
    (discoverURLs cexIndexDoc).length =
      (selectClass "titleBS" cexIndexDoc).length :=
  ⟨((C9_link_discovery cexIndexDoc).1).trans rfl,
    (C9_link_discovery cexIndexDoc).2.2 (by decide)⟩
